import Mathlib

/-!
A shallow embedding of the metric-collection core of `dx-automator`
(`src/examples/metrics.py`): the hierarchical aggregation tree built by
`MetricCollector`, its `aggregate`, `process_repo`, `summarize` and `run`
operations, together with theorems checking the specification's claims
about them.

Python's insertion-ordered `dict` is embedded as an association list with
update-in-place insertion; floats (day counts) are embedded as `Rat`;
fallible code paths (Python exceptions such as `min([])`) are embedded with
`Option`.
-/

namespace DxAutomator

/-- Lookup in a Python-style dict embedded as an association list:
the value of the first (and, for genuine dicts, only) binding of `k`. -/
def dlookup {α : Type} (m : List (String × α)) (k : String) : Option α :=
  match m with
  | [] => none
  | (k', v) :: rest => if k' = k then some v else dlookup rest k

/-- `d[k] = v` on a Python dict: replace the binding in place if `k` is
present, otherwise append the new binding at the end (insertion order). -/
def dinsert {α : Type} (m : List (String × α)) (k : String) (v : α) :
    List (String × α) :=
  match m with
  | [] => [(k, v)]
  | (k', v') :: rest =>
    if k' = k then (k, v) :: rest else (k', v') :: dinsert rest k v

/-- `d.pop(k, None)` on a Python dict: drop every binding of `k`,
keeping the order of the remaining bindings. -/
def dpop {α : Type} (m : List (String × α)) (k : String) :
    List (String × α) :=
  m.filter (fun p => p.1 != k)

/-- The keys of an embedded dict, in insertion order. -/
def dkeys {α : Type} (m : List (String × α)) : List String :=
  m.map Prod.fst

/-- `k in d` on a Python dict. -/
def hasKey {α : Type} (m : List (String × α)) (k : String) : Bool :=
  m.any (fun p => p.1 == k)

/-- A well-formed embedded dict binds each key at most once, exactly as a
Python dict does. -/
def DictWF {α : Type} (m : List (String × α)) : Prop :=
  (dkeys m).Nodup

instance {α : Type} (m : List (String × α)) : Decidable (DictWF m) :=
  inferInstanceAs (Decidable (dkeys m).Nodup)

/-- The aggregated record `aggregate` stores per metric:
`{'values': ..., 'count': ..., 'min': ..., 'max': ..., 'mean': ..., 'median': ...}`. -/
structure AggRecord where
  values : List Rat
  count : Nat
  min : Rat
  max : Rat
  mean : Rat
  median : Rat
deriving DecidableEq, Repr

/-- A metric value in the tree: leaves hold scalars (day-count floats),
aggregated nodes hold `AggRecord`s (`isinstance(value, dict)` in the source
distinguishes the two shapes). -/
inductive MetricValue where
  | scalar : Rat → MetricValue
  | agg : AggRecord → MetricValue
deriving DecidableEq, Repr

/-- One node of the summary tree built by `base_type()`:
`{'nodes': defaultdict(base_type), 'metrics': {}}`. -/
inductive Node where
  | mk : List (String × Node) → List (String × MetricValue) → Node

/-- The `'nodes'` child map of a tree node. -/
def Node.nodes : Node → List (String × Node)
  | .mk ns _ => ns

/-- The `'metrics'` map of a tree node. -/
def Node.metrics : Node → List (String × MetricValue)
  | .mk _ ms => ms

/-- `defaultdict` child access `d['nodes'][k]`: the existing child, or a
fresh empty node created on first access. -/
def getChild (ns : List (String × Node)) (k : String) : Node :=
  (dlookup ns k).getD (Node.mk [] [])

/-- Python's `sorted` on a list of floats (ascending). -/
def sortR (l : List Rat) : List Rat :=
  l.insertionSort (· ≤ ·)

/-- `statistics.median`: sort, then take the middle element, averaging the
two middle elements for an even length.  The `getD 0` defaults are never
reached on the nonempty lists `aggregate` passes in. -/
def pyMedian (l : List Rat) : Rat :=
  let s := sortR l
  let n := s.length
  if n % 2 = 1 then (s.get? (n / 2)).getD 0
  else (((s.get? (n / 2 - 1)).getD 0) + ((s.get? (n / 2)).getD 0)) / 2

/-- The record `aggregate` builds for a nonempty value list `x :: xs`:
`min`/`max` are Python's left folds over the list, `mean` is
`statistics.mean` (sum over count), `median` is `statistics.median`. -/
def statsRec (x : Rat) (xs : List Rat) : AggRecord :=
  { values := sortR (x :: xs)
    count := (x :: xs).length
    min := xs.foldl min x
    max := xs.foldl max x
    mean := (x :: xs).sum / ((x :: xs).length : Rat)
    median := pyMedian (x :: xs) }

/-- The statistics of a collected value list; `none` embeds the
`ValueError` Python's `min([])` raises on an empty sequence. -/
def stats : List Rat → Option AggRecord
  | [] => none
  | x :: xs => some (statsRec x xs)

/-- Total variant of `stats` used to state lemmas about the success path
(only ever applied to nonempty lists there). -/
def statsD (vs : List Rat) : AggRecord :=
  match vs with
  | [] => { values := [], count := 0, min := 0, max := 0, mean := 0, median := 0 }
  | x :: xs => statsRec x xs

/-- A child's contribution to a metric: a scalar contributes a one-element
sequence, an aggregated record contributes its `values` sequence
(the `isinstance` unwrapping in `aggregate`). -/
def contribution : MetricValue → List Rat
  | .scalar x => [x]
  | .agg r => r.values

/-- The inner collection step of `aggregate`, for one `(metric_id, value)`
item of a child's metrics: create the key with `[]` if absent, then extend
with the unwrapped contribution. -/
def addEntry (acc : List (String × List Rat)) (p : String × MetricValue) :
    List (String × List Rat) :=
  dinsert acc p.1 (((dlookup acc p.1).getD []) ++ contribution p.2)

/-- The collection loop of `aggregate`: for every child, for every metric
item, accumulate contributions keyed by metric name. -/
def collect (children : List (String × Node)) : List (String × List Rat) :=
  children.foldl (fun acc c => c.2.metrics.foldl addEntry acc) []

/-- The storing loop of `aggregate`: write the statistics record of every
collected metric into the node's metrics map, failing (`none`) if some
collected value list is empty. -/
def aggFold (m0 : List (String × MetricValue)) :
    List (String × List Rat) → Option (List (String × MetricValue))
  | [] => some m0
  | (mid, vs) :: rest =>
    match stats vs with
    | none => none
    | some r => aggFold (dinsert m0 mid (MetricValue.agg r)) rest

/-- `MetricCollector.aggregate(node)`: collect every child's contributions
per metric name, then store `{values, count, min, max, mean, median}` for
each; the children themselves are not touched. -/
def Node.aggregate (n : Node) : Option Node :=
  match aggFold n.metrics (collect n.nodes) with
  | none => none
  | some m => some (Node.mk n.nodes m)

/-- All contributions to metric `mid` found among the items of one metrics
dict, in item order. -/
def contAt (m : List (String × MetricValue)) (mid : String) : List Rat :=
  (m.filter (fun p => p.1 == mid)).flatMap (fun p => contribution p.2)

/-- The concatenation, in child-iteration order, of every child's
contributions to metric `mid`. -/
def contribAll (children : List (String × Node)) (mid : String) : List Rat :=
  children.flatMap (fun c => contAt c.2.metrics mid)

/-- The spec's wording of the aggregation input for one metric name: each
direct child's stored value for that name contributes a one-element
sequence (scalar) or its `values` sequence (aggregated record), and the
contributions are concatenated in child order. -/
def specConcat (children : List (String × Node)) (mid : String) : List Rat :=
  children.flatMap (fun c =>
    match dlookup c.2.metrics mid with
    | some v => contribution v
    | none => [])

/-- The success-path value of `aggFold`: store the statistics record of
every collected metric. -/
def aggPure (m0 : List (String × MetricValue))
    (l : List (String × List Rat)) : List (String × MetricValue) :=
  l.foldl (fun m p => dinsert m p.1 (MetricValue.agg (statsD p.2))) m0

/-- Modelled from the spec: `common.issue.get_delta_days` (not under
`src/`) returns the day-delta between two timestamps; timestamps are
embedded as rational day counts, so the delta is the difference. -/
def get_delta_days (a b : Rat) : Rat :=
  b - a

/-- Modelled from the spec: the category taxonomy used by
`Issue.get_issue_category` (not under `src/`) — "a category label (one of
a fixed taxonomy, e.g. bug, feature, question)". -/
def CATEGORY_TAXONOMY : List String :=
  ["bug", "feature", "question"]

/-- Modelled from the spec: a `common.issue.Issue` (not under `src/`)
after `process_events` has folded its timeline — the fields `process_repo`
reads, with the base duration metrics `process_events` may have produced
(`time_to_close`, `time_awaiting_resolution`, `time_to_close_pr`) as
optional day counts. -/
structure ProcessedIssue where
  url : String
  author : String
  created_at : Rat
  closed : Bool
  first_admin_comment : Option Rat
  category : Option String
  status : String
  time_to_close : Option Rat
  time_awaiting_resolution : Option Rat
  time_to_close_pr : Option Rat
deriving DecidableEq, Repr

/-- The metrics dict of a processed issue as `process_repo` first sees it,
built from the optional base duration metrics. -/
def ProcessedIssue.baseMetrics (i : ProcessedIssue) :
    List (String × MetricValue) :=
  (match i.time_to_close with
   | some v => [("time_to_close", MetricValue.scalar v)]
   | none => []) ++
  (match i.time_awaiting_resolution with
   | some v => [("time_awaiting_resolution", MetricValue.scalar v)]
   | none => []) ++
  (match i.time_to_close_pr with
   | some v => [("time_to_close_pr", MetricValue.scalar v)]
   | none => [])

/-- Modelled from the spec: the facts §4.1 states about the
`process_events` output (not under `src/`) — `time_to_close` is present
exactly when the issue is closed as of `reporting_end`, the
pull-request close metric can only exist on a closed record, and a derived
category always belongs to the fixed taxonomy. -/
def SpecIssue (i : ProcessedIssue) : Prop :=
  (i.time_to_close.isSome = true ↔ i.closed = true) ∧
  (i.time_to_close_pr.isSome = true → i.closed = true) ∧
  i.category.all CATEGORY_TAXONOMY.contains = true

instance (i : ProcessedIssue) : Decidable (SpecIssue i) :=
  inferInstanceAs (Decidable (_ ∧ _ ∧ _))

/-- The mutable state `process_repo` threads: the repo node's `'nodes'`
child map and the collector's `untagged_issues` list. -/
structure RepoState where
  nodes : List (String × Node)
  untagged : List ProcessedIssue

/-- Lines 89–97 of `metrics.py`: pop `time_to_close`; unless the status is
duplicate/invalid, re-attach it category-suffixed when a first admin
comment and a category exist, collecting the issue as untagged when the
category is missing. -/
def ttcStep (i : ProcessedIssue) (m0 : List (String × MetricValue)) :
    List (String × MetricValue) × List ProcessedIssue :=
  match dlookup m0 "time_to_close" with
  | none => (m0, [])
  | some v =>
    let m := dpop m0 "time_to_close"
    if i.status = "duplicate" ∨ i.status = "invalid" then (m, [])
    else if i.first_admin_comment.isSome then
      match i.category with
      | some c => (dinsert m ("time_to_close_" ++ c) v, [])
      | none => (m, [i])
    else (m, [])

/-- Lines 99–105 of `metrics.py`: pop `time_awaiting_resolution` and
re-attach it category-suffixed, collecting the issue as untagged when the
category is missing. -/
def tarStep (i : ProcessedIssue) (m0 : List (String × MetricValue)) :
    List (String × MetricValue) × List ProcessedIssue :=
  match dlookup m0 "time_awaiting_resolution" with
  | none => (m0, [])
  | some v =>
    let m := dpop m0 "time_awaiting_resolution"
    match i.category with
    | some c => (dinsert m ("time_awaiting_resolution_" ++ c) v, [])
    | none => (m, [i])

/-- The transformed metrics dict attached at line 110 of `metrics.py`,
together with the issues collected as untagged: the `time_to_close` and
`time_awaiting_resolution` blocks in sequence, then
`metrics.pop('time_to_close_pr', None)` when no admin ever commented. -/
def transformed (i : ProcessedIssue) :
    List (String × MetricValue) × List ProcessedIssue :=
  let r1 := ttcStep i i.baseMetrics
  let r2 := tarStep i r1.1
  let m3 := if i.first_admin_comment.isSome then r2.1
            else dpop r2.1 "time_to_close_pr"
  (m3, r1.2 ++ r2.2)

/-- The body of `process_repo`'s per-issue loop (lines 75–115 of
`metrics.py`): skip admins and issues created after `end_date`; inside the
reporting window, rewrite the duration metrics and attach them to the
issue's leaf node; for an issue still open, attach `time_open`. -/
def stepIssue (admins : List String) (start_date end_date : Rat)
    (st : RepoState) (i : ProcessedIssue) : RepoState :=
  if i.author ∈ admins then st
  else if end_date < i.created_at then st
  else
    let st1 :=
      if start_date ≤ i.created_at then
        let r := transformed i
        let child := getChild st.nodes i.url
        { nodes := dinsert st.nodes i.url (Node.mk child.nodes r.1)
          untagged := st.untagged ++ r.2 }
      else st
    if i.closed then st1
    else
      let child := getChild st1.nodes i.url
      let m := dinsert child.metrics "time_open"
        (MetricValue.scalar (get_delta_days i.created_at end_date))
      { nodes := dinsert st1.nodes i.url (Node.mk child.nodes m)
        untagged := st1.untagged }

/-- `MetricCollector.process_repo` over the issues of one repository. -/
def processRepo (admins : List String) (start_date end_date : Rat)
    (st : RepoState) (issues : List ProcessedIssue) : RepoState :=
  issues.foldl (stepIssue admins start_date end_date) st

/-- The run's input data: for each organization, its repositories with the
processed issues `get_repo_issues` returns for them. -/
structure RunInput where
  orgs : List (String × List (String × List ProcessedIssue))

/-- The repo-processing loops of `run` (lines 33–39 of `metrics.py`):
build the global node's child map and the collected untagged list. -/
def buildTree (admins : List String) (start_date end_date : Rat)
    (input : RunInput) : List (String × Node) × List ProcessedIssue :=
  input.orgs.foldl
    (fun g org =>
      let onode := getChild g.1 org.1
      let oc := org.2.foldl
        (fun oc repo =>
          let rnode := getChild oc.1 repo.1
          let st := processRepo admins start_date end_date
            ⟨rnode.nodes, oc.2⟩ repo.2
          (dinsert oc.1 repo.1 (Node.mk st.nodes rnode.metrics), st.untagged))
        (onode.nodes, g.2)
      (dinsert g.1 org.1 (Node.mk oc.1 onode.metrics), oc.2))
    ([], [])

/-- A value of a flattened report row: the `name`/`date` strings, the
`count` integer, or a statistic. -/
inductive RowVal where
  | str : String → RowVal
  | num : Rat → RowVal
  | nat : Nat → RowVal
deriving DecidableEq, Repr

/-- `MetricCollector.summarize`: flatten a node's metrics into one report
row `{name, date, <metric>_<stat>: value}` skipping the `values` key;
`none` embeds the crash on a scalar (a float has no `.items()`), which the
system never reaches on aggregated nodes. -/
def summarize (name : String) (reporting_date : String) (node : Node) :
    Option (List (String × RowVal)) :=
  node.metrics.foldlM
    (fun row p =>
      match p.2 with
      | MetricValue.scalar _ => none
      | MetricValue.agg r => some (row ++
          [(p.1 ++ "_count", RowVal.nat r.count),
           (p.1 ++ "_min", RowVal.num r.min),
           (p.1 ++ "_max", RowVal.num r.max),
           (p.1 ++ "_mean", RowVal.num r.mean),
           (p.1 ++ "_median", RowVal.num r.median)]))
    [("name", RowVal.str name), ("date", RowVal.str reporting_date)]

/-- The per-organization aggregation loop of `run` (lines 48–58 of
`metrics.py`): aggregate and summarize every repo node, then the org node. -/
def aggOrgs (date : String) :
    List (String × Node) →
    Option (List (String × Node) × List (List (String × RowVal)))
  | [] => some ([], [])
  | (oname, onode) :: rest => do
    let rc ← onode.nodes.foldlM
      (fun acc r => do
        let r' ← Node.aggregate r.2
        let row ← summarize r.1 date r'
        pure (acc.1 ++ [(r.1, r')], acc.2 ++ [row]))
      (([] : List (String × Node)), ([] : List (List (String × RowVal))))
    let o2 ← Node.aggregate (Node.mk rc.1 onode.metrics)
    let orow ← summarize oname date o2
    let tl ← aggOrgs date rest
    pure ((oname, o2) :: tl.1, rc.2 ++ [orow] ++ tl.2)

/-- The outcome of one reporting run: what was printed for the abort
signal, the flattened report rows handed to the sink, and the final tree. -/
structure RunOutcome where
  printed : List String
  rows : List (List (String × RowVal))
  tree : Node

/-- `MetricCollector.run`: process every repo, abort printing the
offending URLs if any untagged issues were collected, otherwise aggregate
and summarize bottom-up (repo, then org, then global).  The JSON dump and
the spreadsheet upload are external sinks and not modelled. -/
def run (admins : List String) (start_date end_date : Rat) (date : String)
    (input : RunInput) : Option RunOutcome :=
  let bu := buildTree admins start_date end_date input
  if bu.2.isEmpty then
    match aggOrgs date bu.1 with
    | none => none
    | some (gc, rows) =>
      match Node.aggregate (Node.mk gc []) with
      | none => none
      | some g =>
        match summarize "global" date g with
        | none => none
        | some grow =>
          some { printed := [], rows := rows ++ [grow], tree := g }
  else
    some { printed := "These issues need a \"type\" label:" ::
             bu.2.map ProcessedIssue.url
           rows := []
           tree := Node.mk bu.1 [] }

/-- A concrete two-issue repo node used to exercise the aggregator: two
leaf children holding scalars 3 and 7 for metric `"m"`. -/
def exParent : Node :=
  Node.mk [("u1", Node.mk [] [("m", MetricValue.scalar 3)]),
           ("u2", Node.mk [] [("m", MetricValue.scalar 7)])] []

/-- The aggregate of `exParent`. -/
def exParentAgg : Node :=
  Node.mk exParent.nodes
    [("m", MetricValue.agg
      { values := [3, 7], count := 2, min := 3, max := 7,
        mean := 5, median := 5 })]

/-- A concrete closed issue with a recognized category and normal status
but no first admin comment. -/
def c3Issue : ProcessedIssue :=
  { url := "u", author := "bob", created_at := 5, closed := true,
    first_admin_comment := none, category := some "bug", status := "ok",
    time_to_close := some 3, time_awaiting_resolution := none,
    time_to_close_pr := none }

/-- Like `c3Issue` but with a first admin comment. -/
def c3IssueFac : ProcessedIssue :=
  { c3Issue with first_admin_comment := some 6 }

/-- A closed issue with a pending `time_to_close` and a first admin
comment but no category label: collected as untagged by `process_repo`. -/
def c2Issue : ProcessedIssue :=
  { url := "u1", author := "bob", created_at := 5, closed := true,
    first_admin_comment := some 6, category := none, status := "ok",
    time_to_close := some 3, time_awaiting_resolution := none,
    time_to_close_pr := none }

/-- A one-org, one-repo run input containing only `c2Issue`. -/
def c2Input : RunInput :=
  ⟨[("o", [("r", [c2Issue])])]⟩

/-! ### Association-list (Python dict) lemmas -/

theorem dlookup_dinsert_self {α : Type} (m : List (String × α)) (k : String)
    (v : α) : dlookup (dinsert m k v) k = some v := by
  induction m with
  | nil => simp [dinsert, dlookup]
  | cons p rest ih =>
    obtain ⟨k₀, v₀⟩ := p
    by_cases h : k₀ = k
    · simp [dinsert, h, dlookup]
    · simp [dinsert, h, dlookup, ih]

theorem dlookup_dinsert_ne {α : Type} (m : List (String × α)) {k k' : String}
    (v : α) (h : k' ≠ k) : dlookup (dinsert m k v) k' = dlookup m k' := by
  induction m with
  | nil => simp [dinsert, dlookup, Ne.symm h]
  | cons p rest ih =>
    obtain ⟨k₀, v₀⟩ := p
    by_cases h0 : k₀ = k
    · subst h0; simp [dinsert, dlookup, Ne.symm h]
    · simp [dinsert, h0, dlookup, ih]

theorem hasKey_cons {α : Type} (p : String × α) (m : List (String × α))
    (k : String) : hasKey (p :: m) k = (p.1 == k || hasKey m k) := rfl

theorem dkeys_cons {α : Type} (p : String × α) (m : List (String × α)) :
    dkeys (p :: m) = p.1 :: dkeys m := rfl

theorem dlookup_cons {α : Type} (k₀ k : String) (v : α)
    (m : List (String × α)) :
    dlookup ((k₀, v) :: m) k = if k₀ = k then some v else dlookup m k := rfl

theorem hasKey_eq_isSome {α : Type} (m : List (String × α)) (k : String) :
    hasKey m k = (dlookup m k).isSome := by
  induction m with
  | nil => rfl
  | cons p rest ih =>
    obtain ⟨k₀, v₀⟩ := p
    rw [hasKey_cons, ih, dlookup_cons]
    by_cases h : k₀ = k <;> simp [h]

theorem hasKey_iff_mem_dkeys {α : Type} (m : List (String × α)) (k : String) :
    hasKey m k = true ↔ k ∈ dkeys m := by
  induction m with
  | nil => simp [hasKey, dkeys]
  | cons p rest ih =>
    obtain ⟨k₀, v₀⟩ := p
    rw [hasKey_cons, dkeys_cons]
    by_cases h : k₀ = k
    · simp [h]
    · have h' : ¬k = k₀ := fun e => h e.symm
      simp [h, h', ih]

theorem dkeys_dinsert {α : Type} (m : List (String × α)) (k : String)
    (v : α) :
    dkeys (dinsert m k v) = if hasKey m k then dkeys m else dkeys m ++ [k] := by
  induction m with
  | nil => simp [dinsert, dkeys, hasKey]
  | cons p rest ih =>
    obtain ⟨k₀, v₀⟩ := p
    rw [hasKey_cons]
    by_cases h : k₀ = k
    · simp [dinsert, h, dkeys_cons]
    · have e : dinsert ((k₀, v₀) :: rest) k v = (k₀, v₀) :: dinsert rest k v := by
        simp [dinsert, h]
      rw [e, dkeys_cons, ih, dkeys_cons]
      by_cases h2 : hasKey rest k <;> simp [h, h2]

theorem dictWF_dinsert {α : Type} {m : List (String × α)} (wf : DictWF m)
    (k : String) (v : α) : DictWF (dinsert m k v) := by
  unfold DictWF at *
  rw [dkeys_dinsert]
  by_cases h : hasKey m k = true
  · simpa [h]
  · have hk : k ∉ dkeys m := fun hmem =>
      h ((hasKey_iff_mem_dkeys m k).mpr hmem)
    rw [if_neg (by simpa using h), List.nodup_append]
    refine ⟨wf, List.nodup_singleton k, ?_⟩
    intro a ha hb
    rw [List.mem_singleton] at hb
    exact hk (hb ▸ ha)

theorem mem_of_dlookup_eq_some {α : Type} {m : List (String × α)}
    {k : String} {v : α} (h : dlookup m k = some v) : (k, v) ∈ m := by
  induction m with
  | nil => simp [dlookup] at h
  | cons p rest ih =>
    obtain ⟨k₀, v₀⟩ := p
    rw [dlookup_cons] at h
    by_cases h0 : k₀ = k
    · subst h0
      rw [if_pos rfl] at h
      injection h with h
      subst h
      exact List.mem_cons_self _ _
    · rw [if_neg h0] at h
      exact List.mem_cons_of_mem _ (ih h)

theorem dlookup_eq_some_of_mem {α : Type} {m : List (String × α)}
    (wf : DictWF m) {k : String} {v : α} (h : (k, v) ∈ m) :
    dlookup m k = some v := by
  induction m with
  | nil => simp at h
  | cons p rest ih =>
    obtain ⟨k₀, v₀⟩ := p
    unfold DictWF at wf
    rw [dkeys_cons, List.nodup_cons] at wf
    rcases List.mem_cons.mp h with h1 | h1
    · rw [Prod.mk.injEq] at h1
      obtain ⟨e1, e2⟩ := h1
      subst e1; subst e2
      simp [dlookup_cons]
    · by_cases h0 : k₀ = k
      · subst h0
        have : k₀ ∈ dkeys rest := by
          have := List.mem_map_of_mem Prod.fst h1
          simpa [dkeys] using this
        exact absurd this wf.1
      · rw [dlookup_cons, if_neg h0]
        exact ih wf.2 h1

theorem dpop_cons {α : Type} (k₀ k : String) (v : α)
    (m : List (String × α)) :
    dpop ((k₀, v) :: m) k =
      if k₀ = k then dpop m k else (k₀, v) :: dpop m k := by
  by_cases h : k₀ = k <;> simp [dpop, List.filter_cons, h]

theorem dlookup_dpop_self {α : Type} (m : List (String × α)) (k : String) :
    dlookup (dpop m k) k = none := by
  induction m with
  | nil => rfl
  | cons p rest ih =>
    obtain ⟨k₀, v₀⟩ := p
    rw [dpop_cons]
    by_cases h : k₀ = k
    · rw [if_pos h]; exact ih
    · rw [if_neg h, dlookup_cons, if_neg h]; exact ih

theorem dlookup_dpop_ne {α : Type} (m : List (String × α)) {k k' : String}
    (h : k' ≠ k) : dlookup (dpop m k) k' = dlookup m k' := by
  induction m with
  | nil => rfl
  | cons p rest ih =>
    obtain ⟨k₀, v₀⟩ := p
    rw [dpop_cons]
    by_cases h0 : k₀ = k
    · subst h0
      rw [if_pos rfl, dlookup_cons, if_neg (fun e => h e.symm)]
      exact ih
    · rw [if_neg h0, dlookup_cons, dlookup_cons]
      by_cases h1 : k₀ = k' <;> simp [h1, ih]

theorem dlookup_append {α : Type} (m₁ m₂ : List (String × α)) (k : String) :
    dlookup (m₁ ++ m₂) k = (dlookup m₁ k).or (dlookup m₂ k) := by
  induction m₁ with
  | nil => simp [dlookup]
  | cons p rest ih =>
    obtain ⟨k₀, v₀⟩ := p
    by_cases h : k₀ = k <;> simp [dlookup, h, ih]

/-! ### Sorting and statistics lemmas -/

theorem sortR_perm (l : List Rat) : List.Perm (sortR l) l :=
  List.perm_insertionSort _ l

theorem sortR_sortedLe (l : List Rat) : (sortR l).Sorted (· ≤ ·) :=
  List.sorted_insertionSort _ l

theorem sortR_eq_of_perm {l₁ l₂ : List Rat} (h : List.Perm l₁ l₂) :
    sortR l₁ = sortR l₂ :=
  List.eq_of_perm_of_sorted
    ((sortR_perm l₁).trans (h.trans (sortR_perm l₂).symm))
    (sortR_sortedLe l₁) (sortR_sortedLe l₂)

theorem foldl_min_mem (x : Rat) (xs : List Rat) :
    xs.foldl min x ∈ x :: xs := by
  induction xs generalizing x with
  | nil => simp
  | cons y ys ih =>
    have h := ih (min x y)
    rw [List.foldl_cons]
    rcases List.mem_cons.mp h with h1 | h1
    · rcases min_choice x y with h2 | h2 <;> rw [h1, h2] <;> simp
    · simp [List.mem_cons, h1]

theorem foldl_min_le (x : Rat) (xs : List Rat) :
    ∀ b ∈ x :: xs, xs.foldl min x ≤ b := by
  induction xs generalizing x with
  | nil =>
    intro b hb
    rw [List.mem_singleton] at hb
    simp [hb]
  | cons y ys ih =>
    intro b hb
    rw [List.foldl_cons]
    rcases List.mem_cons.mp hb with h1 | h1
    · calc ys.foldl min (min x y) ≤ min x y :=
          ih (min x y) _ (List.mem_cons_self _ _)
        _ ≤ b := h1 ▸ min_le_left x y
    · rcases List.mem_cons.mp h1 with h2 | h2
      · calc ys.foldl min (min x y) ≤ min x y :=
            ih (min x y) _ (List.mem_cons_self _ _)
          _ ≤ b := h2 ▸ min_le_right x y
      · exact ih (min x y) _ (List.mem_cons_of_mem _ h2)

theorem foldl_max_mem (x : Rat) (xs : List Rat) :
    xs.foldl max x ∈ x :: xs := by
  induction xs generalizing x with
  | nil => simp
  | cons y ys ih =>
    have h := ih (max x y)
    rw [List.foldl_cons]
    rcases List.mem_cons.mp h with h1 | h1
    · rcases max_choice x y with h2 | h2 <;> rw [h1, h2] <;> simp
    · simp [List.mem_cons, h1]

theorem le_foldl_max (x : Rat) (xs : List Rat) :
    ∀ b ∈ x :: xs, b ≤ xs.foldl max x := by
  induction xs generalizing x with
  | nil =>
    intro b hb
    rw [List.mem_singleton] at hb
    simp [hb]
  | cons y ys ih =>
    intro b hb
    rw [List.foldl_cons]
    rcases List.mem_cons.mp hb with h1 | h1
    · calc b ≤ max x y := h1 ▸ le_max_left x y
        _ ≤ ys.foldl max (max x y) :=
          ih (max x y) _ (List.mem_cons_self _ _)
    · rcases List.mem_cons.mp h1 with h2 | h2
      · calc b ≤ max x y := h2 ▸ le_max_right x y
          _ ≤ ys.foldl max (max x y) :=
            ih (max x y) _ (List.mem_cons_self _ _)
      · exact ih (max x y) _ (List.mem_cons_of_mem _ h2)

theorem foldl_min_perm {x y : Rat} {xs ys : List Rat}
    (h : List.Perm (x :: xs) (y :: ys)) : xs.foldl min x = ys.foldl min y := by
  apply le_antisymm
  · exact foldl_min_le x xs _ (h.mem_iff.mpr (foldl_min_mem y ys))
  · exact foldl_min_le y ys _ (h.mem_iff.mp (foldl_min_mem x xs))

theorem foldl_max_perm {x y : Rat} {xs ys : List Rat}
    (h : List.Perm (x :: xs) (y :: ys)) : xs.foldl max x = ys.foldl max y := by
  apply le_antisymm
  · exact le_foldl_max y ys _ (h.mem_iff.mp (foldl_max_mem x xs))
  · exact le_foldl_max x xs _ (h.mem_iff.mpr (foldl_max_mem y ys))

theorem statsD_perm {l₁ l₂ : List Rat} (h : List.Perm l₁ l₂) :
    statsD l₁ = statsD l₂ := by
  cases l₁ with
  | nil =>
    rw [List.Perm.eq_nil h.symm]
  | cons x xs =>
    cases l₂ with
    | nil => exact absurd (List.Perm.eq_nil h) (by simp)
    | cons y ys =>
      simp only [statsD, statsRec, AggRecord.mk.injEq]
      refine ⟨sortR_eq_of_perm h, h.length_eq, foldl_min_perm h,
        foldl_max_perm h, ?_, ?_⟩
      · rw [h.sum_eq, h.length_eq]
      · unfold pyMedian
        rw [sortR_eq_of_perm h]

theorem stats_eq_some {vs : List Rat} (h : vs ≠ []) :
    stats vs = some (statsD vs) := by
  cases vs with
  | nil => exact absurd rfl h
  | cons x xs => rfl

theorem stats_nil : stats [] = none := rfl

theorem statsD_sortR (l : List Rat) : statsD (sortR l) = statsD l :=
  statsD_perm (sortR_perm l)

/-! ### Characterizing the collection loop of `aggregate` -/

theorem contAt_cons_self (mid : String) (v : MetricValue)
    (rest : List (String × MetricValue)) :
    contAt ((mid, v) :: rest) mid = contribution v ++ contAt rest mid := by
  simp [contAt, List.filter_cons]

theorem contAt_cons_ne {k mid : String} (h : k ≠ mid) (v : MetricValue)
    (rest : List (String × MetricValue)) :
    contAt ((k, v) :: rest) mid = contAt rest mid := by
  simp [contAt, List.filter_cons, h]

theorem contAt_eq_nil_of_not_hasKey {ms : List (String × MetricValue)}
    {mid : String} (h : hasKey ms mid = false) : contAt ms mid = [] := by
  induction ms with
  | nil => rfl
  | cons p rest ih =>
    obtain ⟨k, v⟩ := p
    rw [hasKey_cons] at h
    simp only [Bool.or_eq_false_iff, beq_eq_false_iff_ne, ne_eq] at h
    rw [contAt_cons_ne h.1, ih h.2]

theorem contAt_eq_contribution {ms : List (String × MetricValue)}
    (wf : DictWF ms) {mid : String} {v : MetricValue}
    (h : dlookup ms mid = some v) : contAt ms mid = contribution v := by
  induction ms with
  | nil => simp [dlookup] at h
  | cons p rest ih =>
    obtain ⟨k, v₀⟩ := p
    unfold DictWF at wf
    rw [dkeys_cons, List.nodup_cons] at wf
    rw [dlookup_cons] at h
    by_cases hk : k = mid
    · subst hk
      rw [if_pos rfl] at h
      injection h with h
      subst h
      have hnk : hasKey rest k = false := by
        rcases Bool.eq_false_or_eq_true (hasKey rest k) with h1 | h1
        · exact absurd ((hasKey_iff_mem_dkeys rest k).mp h1) wf.1
        · exact h1
      rw [contAt_cons_self, contAt_eq_nil_of_not_hasKey hnk, List.append_nil]
    · rw [if_neg hk] at h
      rw [contAt_cons_ne hk, ih wf.2 h]

theorem contAt_ne_nil {ms : List (String × MetricValue)} {mid : String}
    {v : MetricValue} (hmem : (mid, v) ∈ ms) (hv : contribution v ≠ []) :
    contAt ms mid ≠ [] := by
  obtain ⟨x, hx⟩ := List.exists_mem_of_ne_nil _ hv
  have : x ∈ contAt ms mid := by
    unfold contAt
    rw [List.mem_flatMap]
    exact ⟨(mid, v), List.mem_filter.mpr ⟨hmem, by simp⟩, hx⟩
  exact List.ne_nil_of_mem this

theorem foldl_addEntry_lookup (ms : List (String × MetricValue))
    (acc : List (String × List Rat)) (mid : String) :
    dlookup (ms.foldl addEntry acc) mid =
      if hasKey ms mid || (dlookup acc mid).isSome
      then some (((dlookup acc mid).getD []) ++ contAt ms mid)
      else none := by
  induction ms generalizing acc with
  | nil =>
    cases h : dlookup acc mid <;> simp [contAt, h, hasKey]
  | cons p rest ih =>
    obtain ⟨k, v⟩ := p
    rw [List.foldl_cons, ih, hasKey_cons]
    have he : addEntry acc (k, v) =
        dinsert acc k (((dlookup acc k).getD []) ++ contribution v) := rfl
    by_cases hk : k = mid
    · subst hk
      rw [he, dlookup_dinsert_self, contAt_cons_self]
      cases h : dlookup acc k <;> simp [List.append_assoc]
    · rw [he, dlookup_dinsert_ne _ _ (Ne.symm hk), contAt_cons_ne hk]
      simp [hk]

theorem contribAll_cons (c : String × Node) (rest : List (String × Node))
    (mid : String) :
    contribAll (c :: rest) mid = contAt c.2.metrics mid ++ contribAll rest mid := by
  simp [contribAll]

theorem collect_aux (children : List (String × Node))
    (acc : List (String × List Rat)) (mid : String) :
    dlookup (children.foldl (fun a c => c.2.metrics.foldl addEntry a) acc) mid =
      if children.any (fun c => hasKey c.2.metrics mid) || (dlookup acc mid).isSome
      then some (((dlookup acc mid).getD []) ++ contribAll children mid)
      else none := by
  induction children generalizing acc with
  | nil =>
    cases h : dlookup acc mid <;> simp [contribAll, h]
  | cons c rest ih =>
    rw [List.foldl_cons, ih, foldl_addEntry_lookup, contribAll_cons,
      List.any_cons]
    by_cases h1 : hasKey c.2.metrics mid = true
    · rw [h1]
      cases h2 : dlookup acc mid <;>
        simp only [Bool.true_or, Bool.or_true, Bool.or_false, Bool.false_or,
          Bool.false_eq_true, if_true, if_false, Option.isSome_none,
          Option.isSome_some, Option.getD_none, Option.getD_some,
          List.append_assoc]
    · have h1' : hasKey c.2.metrics mid = false := by
        simpa using h1
      rw [h1', contAt_eq_nil_of_not_hasKey h1']
      cases h2 : dlookup acc mid <;>
        simp only [Bool.true_or, Bool.or_true, Bool.or_false, Bool.false_or,
          Bool.false_eq_true, if_true, if_false, Option.isSome_none,
          Option.isSome_some, Option.getD_none, Option.getD_some,
          List.nil_append, List.append_nil]

theorem collect_lookup (children : List (String × Node)) (mid : String) :
    dlookup (collect children) mid =
      if children.any (fun c => hasKey c.2.metrics mid)
      then some (contribAll children mid)
      else none := by
  rw [collect, collect_aux]
  simp only [dlookup, Option.isSome_none, Bool.or_false, Option.getD_none,
    List.nil_append]

theorem dictWF_foldl_addEntry (ms : List (String × MetricValue))
    (acc : List (String × List Rat)) (wf : DictWF acc) :
    DictWF (ms.foldl addEntry acc) := by
  induction ms generalizing acc with
  | nil => exact wf
  | cons p rest ih =>
    rw [List.foldl_cons]
    exact ih _ (dictWF_dinsert wf _ _)

theorem dictWF_collect (children : List (String × Node)) :
    DictWF (collect children) := by
  have aux : ∀ acc, DictWF acc →
      DictWF (children.foldl (fun a c => c.2.metrics.foldl addEntry a) acc) := by
    induction children with
    | nil => exact fun acc wf => wf
    | cons c rest ih =>
      intro acc wf
      rw [List.foldl_cons]
      exact ih _ (dictWF_foldl_addEntry _ _ wf)
  exact aux [] (by simp [DictWF, dkeys])

/-! ### Characterizing the storing loop of `aggregate` -/

theorem aggFold_eq_aggPure {l : List (String × List Rat)}
    (h : ∀ p ∈ l, p.2 ≠ []) (m0 : List (String × MetricValue)) :
    aggFold m0 l = some (aggPure m0 l) := by
  induction l generalizing m0 with
  | nil => rfl
  | cons p rest ih =>
    obtain ⟨mid, vs⟩ := p
    cases vs with
    | nil => exact absurd rfl (h (mid, []) (List.mem_cons_self _ _))
    | cons x xs =>
      show aggFold m0 ((mid, x :: xs) :: rest) = _
      rw [show aggFold m0 ((mid, x :: xs) :: rest) =
          aggFold (dinsert m0 mid (MetricValue.agg (statsRec x xs))) rest from rfl]
      rw [ih (fun p hp => h p (List.mem_cons_of_mem _ hp))]
      rfl

theorem ne_nil_of_aggFold_eq_some {l : List (String × List Rat)}
    {m0 m : List (String × MetricValue)} (h : aggFold m0 l = some m) :
    ∀ p ∈ l, p.2 ≠ [] := by
  induction l generalizing m0 with
  | nil => simp
  | cons p rest ih =>
    obtain ⟨mid, vs⟩ := p
    intro q hq
    cases vs with
    | nil => simp [aggFold, stats] at h
    | cons x xs =>
      rcases List.mem_cons.mp hq with h1 | h1
      · rw [h1]; simp
      · exact ih (by simpa [aggFold, stats] using h) q h1

theorem aggPure_lookup_none {l : List (String × List Rat)}
    {mid : String} (h : dlookup l mid = none)
    (m0 : List (String × MetricValue)) :
    dlookup (aggPure m0 l) mid = dlookup m0 mid := by
  induction l generalizing m0 with
  | nil => rfl
  | cons p rest ih =>
    obtain ⟨k, vs⟩ := p
    rw [dlookup_cons] at h
    by_cases hk : k = mid
    · rw [if_pos hk] at h; exact absurd h (by simp)
    · rw [if_neg hk] at h
      show dlookup (aggPure (dinsert m0 k (MetricValue.agg (statsD vs))) rest) mid = _
      rw [ih h, dlookup_dinsert_ne _ _ (Ne.symm hk)]

theorem aggPure_lookup_some {l : List (String × List Rat)} (wf : DictWF l)
    {mid : String} {vs : List Rat} (h : dlookup l mid = some vs)
    (m0 : List (String × MetricValue)) :
    dlookup (aggPure m0 l) mid = some (MetricValue.agg (statsD vs)) := by
  induction l generalizing m0 with
  | nil => simp [dlookup] at h
  | cons p rest ih =>
    obtain ⟨k, vs₀⟩ := p
    unfold DictWF at wf
    rw [dkeys_cons, List.nodup_cons] at wf
    rw [dlookup_cons] at h
    by_cases hk : k = mid
    · subst hk
      rw [if_pos rfl] at h
      injection h with h
      subst h
      have hrest : dlookup rest k = none := by
        cases hr : dlookup rest k with
        | none => rfl
        | some w =>
          exact absurd (by
            have := List.mem_map_of_mem Prod.fst (mem_of_dlookup_eq_some hr)
            simpa [dkeys] using this) wf.1
      show dlookup (aggPure (dinsert m0 k (MetricValue.agg (statsD vs₀))) rest) k = _
      rw [aggPure_lookup_none hrest, dlookup_dinsert_self]
    · rw [if_neg hk] at h
      exact ih wf.2 h _

/-! ### Characterizing `aggregate` itself -/

theorem aggregate_eq_some {n : Node}
    (h : ∀ p ∈ collect n.nodes, p.2 ≠ []) :
    n.aggregate = some (Node.mk n.nodes (aggPure n.metrics (collect n.nodes))) := by
  unfold Node.aggregate
  rw [aggFold_eq_aggPure h]

theorem aggregate_some_elim {n n' : Node} (h : n.aggregate = some n') :
    (∀ p ∈ collect n.nodes, p.2 ≠ []) ∧
    n' = Node.mk n.nodes (aggPure n.metrics (collect n.nodes)) := by
  unfold Node.aggregate at h
  cases hf : aggFold n.metrics (collect n.nodes) with
  | none => rw [hf] at h; exact absurd h (by simp)
  | some m =>
    rw [hf] at h
    have hne := ne_nil_of_aggFold_eq_some hf
    injection h with h
    refine ⟨hne, ?_⟩
    rw [← h]
    rw [aggFold_eq_aggPure hne] at hf
    injection hf with hf
    rw [hf]

theorem aggregate_lookup_hit {n n' : Node} (h : n.aggregate = some n')
    {mid : String} {vs : List Rat}
    (hc : dlookup (collect n.nodes) mid = some vs) :
    dlookup n'.metrics mid = some (MetricValue.agg (statsD vs)) := by
  obtain ⟨-, he⟩ := aggregate_some_elim h
  rw [he]
  exact aggPure_lookup_some (dictWF_collect n.nodes) hc n.metrics

theorem aggregate_lookup_miss {n n' : Node} (h : n.aggregate = some n')
    {mid : String} (hc : dlookup (collect n.nodes) mid = none) :
    dlookup n'.metrics mid = dlookup n.metrics mid := by
  obtain ⟨-, he⟩ := aggregate_some_elim h
  rw [he]
  exact aggPure_lookup_none hc n.metrics

theorem contribAll_ne_nil {children : List (String × Node)} {mid : String}
    {c : String × Node} (hc : c ∈ children)
    (hne : contAt c.2.metrics mid ≠ []) : contribAll children mid ≠ [] := by
  obtain ⟨x, hx⟩ := List.exists_mem_of_ne_nil _ hne
  have hx2 : x ∈ contribAll children mid := by
    unfold contribAll
    rw [List.mem_flatMap]
    exact ⟨c, hc, hx⟩
  exact List.ne_nil_of_mem hx2

/-- Every value stored in the children contributes at least one value — a
scalar always does, and an aggregated record does when its `values` is
nonempty.  True of every tree the system builds: leaves hold scalars and
`aggregate` only stores nonempty records. -/
def ChildrenNonempty (children : List (String × Node)) : Prop :=
  ∀ c ∈ children, ∀ q ∈ c.2.metrics, contribution q.2 ≠ []

instance (children : List (String × Node)) :
    Decidable (ChildrenNonempty children) :=
  inferInstanceAs (Decidable (∀ c ∈ children, ∀ q ∈ c.2.metrics, _ ≠ []))

theorem collect_entry_ne_nil {children : List (String × Node)}
    (hne : ChildrenNonempty children) :
    ∀ p ∈ collect children, p.2 ≠ [] := by
  intro p hp
  have hl := dlookup_eq_some_of_mem (dictWF_collect children) hp
  rw [collect_lookup] at hl
  by_cases hc : (children.any fun c => hasKey c.2.metrics p.1) = true
  · rw [if_pos hc] at hl
    injection hl with hl
    obtain ⟨c, hcmem, hck⟩ := List.any_eq_true.mp hc
    obtain ⟨q, hqmem, hqk⟩ := List.any_eq_true.mp hck
    have hq1 : q.1 = p.1 := by simpa using hqk
    have hcontrib : contribution q.2 ≠ [] := hne c hcmem q hqmem
    have hmemq : (p.1, q.2) ∈ c.2.metrics := by
      rw [← hq1]
      exact hqmem
    rw [← hl]
    exact contribAll_ne_nil hcmem (contAt_ne_nil hmemq hcontrib)
  · rw [if_neg hc] at hl
    exact absurd hl (by simp)

theorem aggregate_total {n : Node} (hne : ChildrenNonempty n.nodes) :
    n.aggregate = some (Node.mk n.nodes (aggPure n.metrics (collect n.nodes))) :=
  aggregate_eq_some (collect_entry_ne_nil hne)

theorem contribAll_eq_specConcat {children : List (String × Node)}
    (wf : ∀ c ∈ children, DictWF c.2.metrics) (mid : String) :
    contribAll children mid = specConcat children mid := by
  induction children with
  | nil => rfl
  | cons c rest ih =>
    rw [contribAll_cons,
      show specConcat (c :: rest) mid =
        (match dlookup c.2.metrics mid with
         | some v => contribution v
         | none => []) ++ specConcat rest mid from List.flatMap_cons ..]
    have hc : contAt c.2.metrics mid =
        (match dlookup c.2.metrics mid with
         | some v => contribution v
         | none => []) := by
      cases h : dlookup c.2.metrics mid with
      | some v => exact contAt_eq_contribution (wf c (List.mem_cons_self _ _)) h
      | none =>
        apply contAt_eq_nil_of_not_hasKey
        rw [hasKey_eq_isSome, h]
        rfl
    rw [hc, ih (fun d hd => wf d (List.mem_cons_of_mem _ hd))]

theorem dictWF_aggPure {m0 : List (String × MetricValue)} (wf : DictWF m0)
    (l : List (String × List Rat)) : DictWF (aggPure m0 l) := by
  induction l generalizing m0 with
  | nil => exact wf
  | cons p rest ih =>
    show DictWF (aggPure (dinsert m0 p.1 (MetricValue.agg (statsD p.2))) rest)
    exact ih (dictWF_dinsert wf _ _)

theorem perm_any_eq {α : Type} {l₁ l₂ : List α} (h : List.Perm l₁ l₂)
    (f : α → Bool) : l₁.any f = l₂.any f := by
  cases h1 : l₁.any f <;> cases h2 : l₂.any f
  · rfl
  · obtain ⟨x, hx, hfx⟩ := List.any_eq_true.mp h2
    have : l₁.any f = true := List.any_eq_true.mpr ⟨x, h.mem_iff.mpr hx, hfx⟩
    rw [h1] at this
    exact absurd this (by simp)
  · obtain ⟨x, hx, hfx⟩ := List.any_eq_true.mp h1
    have : l₂.any f = true := List.any_eq_true.mpr ⟨x, h.mem_iff.mp hx, hfx⟩
    rw [h2] at this
    exact absurd this (by simp)
  · rfl

theorem contribAll_perm {l₁ l₂ : List (String × Node)}
    (h : List.Perm l₁ l₂) (mid : String) :
    List.Perm (contribAll l₁ mid) (contribAll l₂ mid) :=
  List.Perm.flatMap_right _ h

/-! ### C1 -/

/-- C1: for an aggregation node each of whose direct children holds the
metric `mid` (as a scalar or an aggregated record), a successful
`aggregate` stores for `mid` the record whose `values` is the ascending
sort of the concatenation of the children's contributions, whose `count`
is its length, whose `min`/`max` are its least/greatest element, whose
`mean` is its arithmetic mean, and whose `median` is its middle element
(averaging the two middle elements for an even length). -/
theorem C1_aggregate_record_correct (n n' : Node) (mid : String)
    (hagg : n.aggregate = some n')
    (hwf : ∀ c ∈ n.nodes, DictWF c.2.metrics)
    (hall : ∀ c ∈ n.nodes, (dlookup c.2.metrics mid).isSome = true)
    (hne : n.nodes ≠ []) :
    ∃ r, dlookup n'.metrics mid = some (MetricValue.agg r) ∧
      r.values = sortR (specConcat n.nodes mid) ∧
      r.count = (specConcat n.nodes mid).length ∧
      r.min ∈ specConcat n.nodes mid ∧
      (∀ x ∈ specConcat n.nodes mid, r.min ≤ x) ∧
      r.max ∈ specConcat n.nodes mid ∧
      (∀ x ∈ specConcat n.nodes mid, x ≤ r.max) ∧
      r.mean = (specConcat n.nodes mid).sum /
        ((specConcat n.nodes mid).length : Rat) ∧
      (r.values.length % 2 = 1 →
        r.values.get? (r.values.length / 2) = some r.median) ∧
      (r.values.length % 2 = 0 → ∀ a b,
        r.values.get? (r.values.length / 2 - 1) = some a →
        r.values.get? (r.values.length / 2) = some b →
        r.median = (a + b) / 2) := by
  obtain ⟨c₀, hc₀⟩ := List.exists_mem_of_ne_nil _ hne
  have hany : (n.nodes.any fun c => hasKey c.2.metrics mid) = true := by
    refine List.any_eq_true.mpr ⟨c₀, hc₀, ?_⟩
    rw [hasKey_eq_isSome]
    exact hall c₀ hc₀
  have hcoll : dlookup (collect n.nodes) mid = some (contribAll n.nodes mid) := by
    rw [collect_lookup, if_pos hany]
  have hlook := aggregate_lookup_hit hagg hcoll
  have hnil : contribAll n.nodes mid ≠ [] :=
    (aggregate_some_elim hagg).1 _ (mem_of_dlookup_eq_some hcoll)
  have hspec : contribAll n.nodes mid = specConcat n.nodes mid :=
    contribAll_eq_specConcat hwf mid
  rw [hspec] at hlook hnil
  refine ⟨statsD (specConcat n.nodes mid), hlook, ?_⟩
  obtain ⟨x, xs, hvs⟩ : ∃ x xs, specConcat n.nodes mid = x :: xs := by
    cases h : specConcat n.nodes mid with
    | nil => exact absurd h hnil
    | cons x xs => exact ⟨x, xs, rfl⟩
  rw [hvs]
  have hr : statsD (x :: xs) = statsRec x xs := rfl
  rw [hr]
  have hvalues : (statsRec x xs).values = sortR (x :: xs) := rfl
  have hmedian : (statsRec x xs).median = pyMedian (x :: xs) := rfl
  have hlens : (sortR (x :: xs)).length = (x :: xs).length :=
    (sortR_perm (x :: xs)).length_eq
  have hpos : 0 < (sortR (x :: xs)).length := by rw [hlens]; simp
  refine ⟨rfl, rfl, foldl_min_mem x xs, foldl_min_le x xs,
    foldl_max_mem x xs, le_foldl_max x xs, rfl, ?_, ?_⟩
  · intro hmod
    rw [hvalues] at hmod ⊢
    have hlt : (sortR (x :: xs)).length / 2 < (sortR (x :: xs)).length :=
      Nat.div_lt_self hpos (by norm_num)
    rw [List.get?_eq_get hlt, hmedian]
    unfold pyMedian
    simp only
    rw [if_pos (by rw [hlens] at hmod ⊢; exact hmod), List.get?_eq_get hlt]
    rfl
  · intro hmod a b ha hb
    rw [hvalues] at hmod ha hb
    rw [hmedian]
    unfold pyMedian
    simp only
    rw [if_neg (by rw [hlens] at hmod ⊢; omega), ha, hb]
    rfl

theorem exParent_aggregate : exParent.aggregate = some exParentAgg := by
  simp [Node.aggregate, collect, addEntry, dlookup, dinsert, Node.nodes,
    Node.metrics, contribution, aggFold, stats, statsRec, sortR,
    List.insertionSort, List.orderedInsert, pyMedian, exParent, exParentAgg]
  norm_num

/-- Witness for C1: the two-child node `exParent` on metric `"m"`. -/
theorem C1_witness :
    exParent.aggregate = some exParentAgg ∧
    (∃ r, dlookup exParentAgg.metrics "m" = some (MetricValue.agg r) ∧
      r.values = sortR (specConcat exParent.nodes "m") ∧
      r.count = (specConcat exParent.nodes "m").length ∧
      r.min ∈ specConcat exParent.nodes "m" ∧
      (∀ x ∈ specConcat exParent.nodes "m", r.min ≤ x) ∧
      r.max ∈ specConcat exParent.nodes "m" ∧
      (∀ x ∈ specConcat exParent.nodes "m", x ≤ r.max) ∧
      r.mean = (specConcat exParent.nodes "m").sum /
        ((specConcat exParent.nodes "m").length : Rat) ∧
      (r.values.length % 2 = 1 →
        r.values.get? (r.values.length / 2) = some r.median) ∧
      (r.values.length % 2 = 0 → ∀ a b,
        r.values.get? (r.values.length / 2 - 1) = some a →
        r.values.get? (r.values.length / 2) = some b →
        r.median = (a + b) / 2)) :=
  ⟨exParent_aggregate,
   C1_aggregate_record_correct exParent exParentAgg "m" exParent_aggregate
     (by decide) (by decide) (List.cons_ne_nil _ _)⟩

/-! ### C8 -/

/-- C8: on a node whose children's stored values each contribute at least
one value, `aggregate` succeeds and emits records only for metric names
with at least one contributing value (every stored record has a positive
count and nonempty values, so `min`/`max`/`mean`/`median` were never
computed over an empty sequence), and a node with zero children yields an
empty metrics mapping rather than an error. -/
theorem C8_aggregate_safe (n : Node) (hne : ChildrenNonempty n.nodes)
    (hm : n.metrics = []) :
    ∃ n', n.aggregate = some n' ∧
      (∀ mid r, dlookup n'.metrics mid = some (MetricValue.agg r) →
        0 < r.count ∧ r.values ≠ []) ∧
      (n.nodes = [] → n'.metrics = []) := by
  refine ⟨Node.mk n.nodes (aggPure n.metrics (collect n.nodes)),
    aggregate_total hne, ?_, ?_⟩
  · intro mid r hr
    rw [show (Node.mk n.nodes (aggPure n.metrics (collect n.nodes))).metrics =
        aggPure n.metrics (collect n.nodes) from rfl] at hr
    cases hc : dlookup (collect n.nodes) mid with
    | some vs =>
      rw [aggPure_lookup_some (dictWF_collect n.nodes) hc] at hr
      injection hr with hr
      injection hr with hr
      have hvs : vs ≠ [] :=
        collect_entry_ne_nil hne _ (mem_of_dlookup_eq_some hc)
      obtain ⟨x, xs, hx⟩ : ∃ x xs, vs = x :: xs := by
        cases h : vs with
        | nil => exact absurd h hvs
        | cons x xs => exact ⟨x, xs, rfl⟩
      subst hx
      rw [← hr]
      constructor
      · show 0 < (x :: xs).length
        simp
      · show sortR (x :: xs) ≠ []
        have := (sortR_perm (x :: xs)).length_eq
        intro hnil
        rw [hnil] at this
        simp at this
    | none =>
      rw [aggPure_lookup_none hc, hm] at hr
      exact absurd hr (by simp [dlookup])
  · intro h0
    rw [show (Node.mk n.nodes (aggPure n.metrics (collect n.nodes))).metrics =
        aggPure n.metrics (collect n.nodes) from rfl, h0, hm]
    rfl

/-- Witness for C8: `exParent` (two scalar children) has nonempty
contributions, empty own metrics, and a child-free node stays empty. -/
theorem C8_witness :
    ChildrenNonempty exParent.nodes ∧ exParent.metrics = [] ∧
    (∃ n', exParent.aggregate = some n' ∧
      (∀ mid r, dlookup n'.metrics mid = some (MetricValue.agg r) →
        0 < r.count ∧ r.values ≠ []) ∧
      (exParent.nodes = [] → n'.metrics = [])) :=
  ⟨by decide, rfl, C8_aggregate_safe exParent (by decide) rfl⟩

/-! ### C10 -/

/-- C10: `aggregate` writes only the node's own metrics mapping — the
children list, hence every direct child's metrics and subtree, is exactly
the one the node had before the call. -/
theorem C10_aggregate_frame (n n' : Node) (h : n.aggregate = some n') :
    n'.nodes = n.nodes := by
  obtain ⟨-, he⟩ := aggregate_some_elim h
  rw [he]
  rfl

/-- Witness for C10 at `exParent`. -/
theorem C10_witness :
    exParent.aggregate = some exParentAgg ∧
    exParentAgg.nodes = exParent.nodes :=
  ⟨exParent_aggregate,
   C10_aggregate_frame exParent exParentAgg exParent_aggregate⟩

/-! ### C4 -/

/-- C4: aggregating the direct children in any permuted iteration order
yields an aggregate whose stored value for every metric name is identical
(in particular identical `min`, `max`, `mean`, `median` and `count`). -/
theorem C4_aggregate_perm_invariant (n : Node) (ns₂ : List (String × Node))
    (hperm : List.Perm n.nodes ns₂) (n' : Node)
    (hagg : n.aggregate = some n') :
    ∃ n₂, (Node.mk ns₂ n.metrics).aggregate = some n₂ ∧
      ∀ mid, dlookup n₂.metrics mid = dlookup n'.metrics mid := by
  obtain ⟨hok, he⟩ := aggregate_some_elim hagg
  have hanyEq : ∀ mid, (n.nodes.any fun c => hasKey c.2.metrics mid) =
      (ns₂.any fun c => hasKey c.2.metrics mid) :=
    fun mid => perm_any_eq hperm _
  have hok₂ : ∀ p ∈ collect ns₂, p.2 ≠ [] := by
    intro p hp
    have hl := dlookup_eq_some_of_mem (dictWF_collect ns₂) hp
    rw [collect_lookup] at hl
    by_cases hc : (ns₂.any fun c => hasKey c.2.metrics p.1) = true
    · rw [if_pos hc] at hl
      injection hl with hl
      have hany₁ : (n.nodes.any fun c => hasKey c.2.metrics p.1) = true := by
        rw [hanyEq]; exact hc
      have hcoll₁ : dlookup (collect n.nodes) p.1 =
          some (contribAll n.nodes p.1) := by
        rw [collect_lookup, if_pos hany₁]
      have h1 : contribAll n.nodes p.1 ≠ [] :=
        hok _ (mem_of_dlookup_eq_some hcoll₁)
      intro hnil
      apply h1
      have hp2 : List.Perm (contribAll n.nodes p.1) p.2 := by
        rw [← hl]
        exact contribAll_perm hperm p.1
      exact List.Perm.eq_nil (hnil ▸ hp2)
    · rw [if_neg hc] at hl
      exact absurd hl (by simp)
  have hagg₂ : (Node.mk ns₂ n.metrics).aggregate =
      some (Node.mk ns₂ (aggPure n.metrics (collect ns₂))) :=
    @aggregate_eq_some (Node.mk ns₂ n.metrics) hok₂
  refine ⟨_, hagg₂, ?_⟩
  intro mid
  rw [he,
    show (Node.mk ns₂ (aggPure n.metrics (collect ns₂))).metrics =
      aggPure n.metrics (collect ns₂) from rfl,
    show (Node.mk n.nodes (aggPure n.metrics (collect n.nodes))).metrics =
      aggPure n.metrics (collect n.nodes) from rfl]
  by_cases hc : (n.nodes.any fun c => hasKey c.2.metrics mid) = true
  · have hc₂ : (ns₂.any fun c => hasKey c.2.metrics mid) = true := by
      rw [← hanyEq]; exact hc
    have e1 : dlookup (collect n.nodes) mid =
        some (contribAll n.nodes mid) := by
      rw [collect_lookup, if_pos hc]
    have e2 : dlookup (collect ns₂) mid = some (contribAll ns₂ mid) := by
      rw [collect_lookup, if_pos hc₂]
    rw [aggPure_lookup_some (dictWF_collect _) e2,
      aggPure_lookup_some (dictWF_collect _) e1,
      statsD_perm (contribAll_perm hperm mid)]
  · have hc₂ : ¬(ns₂.any fun c => hasKey c.2.metrics mid) = true := by
      rw [← hanyEq]; exact hc
    have e1 : dlookup (collect n.nodes) mid = none := by
      rw [collect_lookup, if_neg hc]
    have e2 : dlookup (collect ns₂) mid = none := by
      rw [collect_lookup, if_neg hc₂]
    rw [aggPure_lookup_none e2, aggPure_lookup_none e1]

/-- Witness for C4: `exParent` with its two children swapped. -/
theorem C4_witness :
    exParent.aggregate = some exParentAgg ∧
    (∃ n₂, (Node.mk [("u2", Node.mk [] [("m", MetricValue.scalar 7)]),
                     ("u1", Node.mk [] [("m", MetricValue.scalar 3)])]
        exParent.metrics).aggregate = some n₂ ∧
      ∀ mid, dlookup n₂.metrics mid = dlookup exParentAgg.metrics mid) :=
  ⟨exParent_aggregate,
   C4_aggregate_perm_invariant exParent
     [("u2", Node.mk [] [("m", MetricValue.scalar 7)]),
      ("u1", Node.mk [] [("m", MetricValue.scalar 3)])]
     (List.Perm.swap ("u2", Node.mk [] [("m", MetricValue.scalar 7)])
       ("u1", Node.mk [] [("m", MetricValue.scalar 3)]) [])
     exParentAgg exParent_aggregate⟩

/-! ### C5 -/

/-- C5: when the global node has exactly one organization child (that
child being the result of aggregating an organization node with empty own
metrics), aggregating the global node stores, for every metric name, the
very record the organization holds. -/
theorem C5_single_org_global (o c : Node) (oname : String)
    (hm : o.metrics = []) (hagg : o.aggregate = some c) :
    ∃ g, (Node.mk [(oname, c)] []).aggregate = some g ∧
      ∀ mid, dlookup g.metrics mid = dlookup c.metrics mid := by
  obtain ⟨hok, he⟩ := aggregate_some_elim hagg
  have hcm : c.metrics = aggPure [] (collect o.nodes) := by
    rw [he,
      show (Node.mk o.nodes (aggPure o.metrics (collect o.nodes))).metrics =
        aggPure o.metrics (collect o.nodes) from rfl, hm]
  have hwfc : DictWF c.metrics := by
    rw [hcm]
    exact dictWF_aggPure (by simp [DictWF, dkeys]) _
  have hchar : ∀ mid, (dlookup c.metrics mid = none ∧
        dlookup (collect o.nodes) mid = none) ∨
      ∃ vs, vs ≠ [] ∧
        dlookup c.metrics mid = some (MetricValue.agg (statsD vs)) := by
    intro mid
    cases hc2 : dlookup (collect o.nodes) mid with
    | none =>
      left
      refine ⟨?_, rfl⟩
      rw [hcm, aggPure_lookup_none hc2]
      rfl
    | some vs =>
      right
      refine ⟨vs, hok _ (mem_of_dlookup_eq_some hc2), ?_⟩
      rw [hcm, aggPure_lookup_some (dictWF_collect _) hc2]
  have hvalsne : ∀ vs : List Rat, vs ≠ [] → (statsD vs).values ≠ [] := by
    intro vs hvs
    obtain ⟨x, xs, rfl⟩ : ∃ x xs, vs = x :: xs := by
      cases h : vs with
      | nil => exact absurd h hvs
      | cons x xs => exact ⟨x, xs, rfl⟩
    show sortR (x :: xs) ≠ []
    intro hnil
    have hl := (sortR_perm (x :: xs)).length_eq
    rw [hnil] at hl
    simp at hl
  have hne : ChildrenNonempty [(oname, c)] := by
    intro d hd q hq
    rw [List.mem_singleton] at hd
    subst hd
    have hlq := dlookup_eq_some_of_mem hwfc hq
    rcases hchar q.1 with ⟨h0, -⟩ | ⟨vs, hvs, h0⟩
    · rw [h0] at hlq
      exact absurd hlq (by simp)
    · rw [h0] at hlq
      injection hlq with hlq
      rw [← hlq]
      exact hvalsne vs hvs
  have hg : (Node.mk [(oname, c)] []).aggregate =
      some (Node.mk [(oname, c)] (aggPure [] (collect [(oname, c)]))) :=
    @aggregate_total (Node.mk [(oname, c)] []) hne
  refine ⟨_, hg, ?_⟩
  intro mid
  rw [show (Node.mk [(oname, c)] (aggPure [] (collect [(oname, c)]))).metrics =
      aggPure [] (collect [(oname, c)]) from rfl]
  have hanyc : ([(oname, c)].any fun d => hasKey d.2.metrics mid) =
      hasKey c.metrics mid := by
    rw [List.any_cons]
    show (hasKey c.metrics mid || List.any [] _) = hasKey c.metrics mid
    simp
  rcases hchar mid with ⟨h0, -⟩ | ⟨vs, hvs, h0⟩
  · have hk : hasKey c.metrics mid = false := by
      rw [hasKey_eq_isSome, h0]
      rfl
    have e : dlookup (collect [(oname, c)]) mid = none := by
      rw [collect_lookup, if_neg (by rw [hanyc, hk]; simp)]
    rw [aggPure_lookup_none e, h0]
    rfl
  · have hk : hasKey c.metrics mid = true := by
      rw [hasKey_eq_isSome, h0]
      rfl
    have hcont : contAt c.metrics mid = (statsD vs).values :=
      contAt_eq_contribution hwfc h0
    have e : dlookup (collect [(oname, c)]) mid =
        some ((statsD vs).values) := by
      rw [collect_lookup, if_pos (by rw [hanyc, hk]), contribAll_cons]
      show some (contAt c.metrics mid ++ contribAll [] mid) = _
      rw [hcont]
      show some ((statsD vs).values ++ []) = _
      rw [List.append_nil]
    have hsv : (statsD vs).values = sortR vs := by
      obtain ⟨x, xs, rfl⟩ : ∃ x xs, vs = x :: xs := by
        cases h : vs with
        | nil => exact absurd h hvs
        | cons x xs => exact ⟨x, xs, rfl⟩
      rfl
    rw [aggPure_lookup_some (dictWF_collect _) e, h0, hsv, statsD_sortR]

/-- Witness for C5: the organization `exParent`, aggregated to
`exParentAgg`, sitting as the only child of a fresh global node. -/
theorem C5_witness :
    exParent.metrics = [] ∧ exParent.aggregate = some exParentAgg ∧
    (∃ g, (Node.mk [("org", exParentAgg)] []).aggregate = some g ∧
      ∀ mid, dlookup g.metrics mid = dlookup exParentAgg.metrics mid) :=
  ⟨rfl, exParent_aggregate,
   C5_single_org_global exParent exParentAgg "org" rfl exParent_aggregate⟩

/-! ### String disjointness facts for the metric names `process_repo` uses -/

theorem append_ne_of_getElem {p t : String} {i : Nat}
    (hip : i < p.data.length) (hne : p.data[i]? ≠ t.data[i]?) (s : String) :
    p ++ s ≠ t := by
  intro h
  have hd := congrArg String.data h
  rw [String.data_append] at hd
  apply hne
  rw [← @List.getElem?_append_left _ _ s.data _ hip, hd]

theorem append_ne_append_of_getElem {p q : String} {i : Nat}
    (hip : i < p.data.length) (hiq : i < q.data.length)
    (hne : p.data[i]? ≠ q.data[i]?) (s t : String) : p ++ s ≠ q ++ t := by
  intro h
  have hd := congrArg String.data h
  rw [String.data_append, String.data_append] at hd
  apply hne
  rw [← @List.getElem?_append_left _ _ s.data _ hip, hd,
    List.getElem?_append_left hiq]

theorem ttc_suffix_ne_time_open (s : String) :
    "time_to_close_" ++ s ≠ "time_open" :=
  @append_ne_of_getElem "time_to_close_" "time_open" 5 (by decide) (by decide) s

theorem ttc_suffix_ne_ttc (s : String) :
    "time_to_close_" ++ s ≠ "time_to_close" :=
  @append_ne_of_getElem "time_to_close_" "time_to_close" 13 (by decide) (by decide) s

theorem ttc_suffix_ne_tar (s : String) :
    "time_to_close_" ++ s ≠ "time_awaiting_resolution" :=
  @append_ne_of_getElem "time_to_close_" "time_awaiting_resolution" 5 (by decide) (by decide) s

theorem tar_suffix_ne_time_open (c : String) :
    "time_awaiting_resolution_" ++ c ≠ "time_open" :=
  @append_ne_of_getElem "time_awaiting_resolution_" "time_open" 5 (by decide) (by decide) c

theorem tar_suffix_ne_ttc (c : String) :
    "time_awaiting_resolution_" ++ c ≠ "time_to_close" :=
  @append_ne_of_getElem "time_awaiting_resolution_" "time_to_close" 5 (by decide) (by decide) c

theorem tar_suffix_ne_ttc_pr (c : String) :
    "time_awaiting_resolution_" ++ c ≠ "time_to_close_pr" :=
  @append_ne_of_getElem "time_awaiting_resolution_" "time_to_close_pr" 5 (by decide) (by decide) c

theorem tar_suffix_ne_tar (c : String) :
    "time_awaiting_resolution_" ++ c ≠ "time_awaiting_resolution" :=
  @append_ne_of_getElem "time_awaiting_resolution_" "time_awaiting_resolution" 24 (by decide) (by decide) c

theorem tar_suffix_ne_ttc_suffix (c s : String) :
    "time_awaiting_resolution_" ++ c ≠ "time_to_close_" ++ s :=
  @append_ne_append_of_getElem "time_awaiting_resolution_" "time_to_close_" 5 (by decide) (by decide) (by decide) c s

theorem ttc_cat_ne_ttc_pr {c : String} (h : c ∈ CATEGORY_TAXONOMY) :
    "time_to_close_" ++ c ≠ "time_to_close_pr" := by
  fin_cases h <;> decide

/-! ### The per-issue step of `process_repo` -/

theorem stepIssue_open_result (admins : List String)
    (start_date end_date : Rat) (st : RepoState) (i : ProcessedIssue)
    (h1 : i.author ∉ admins) (h2 : i.created_at ≤ end_date)
    (h3 : i.closed = false) (hfresh : dlookup st.nodes i.url = none) :
    dlookup (stepIssue admins start_date end_date st i).nodes i.url =
      some (Node.mk []
        (dinsert (if start_date ≤ i.created_at then (transformed i).1 else [])
          "time_open"
          (MetricValue.scalar (get_delta_days i.created_at end_date)))) := by
  unfold stepIssue
  rw [if_neg h1, if_neg (not_lt.mpr h2)]
  have hgc : getChild st.nodes i.url = Node.mk [] [] := by
    rw [getChild, hfresh]
    rfl
  by_cases hstart : start_date ≤ i.created_at
  · rw [if_pos hstart, if_pos hstart]
    simp only [h3, Bool.false_eq_true, if_false, hgc]
    have hlk : dlookup
        (dinsert st.nodes i.url (Node.mk (Node.mk [] []).nodes (transformed i).1))
        i.url = some (Node.mk [] (transformed i).1) :=
      dlookup_dinsert_self ..
    rw [show getChild
        (dinsert st.nodes i.url (Node.mk (Node.mk [] []).nodes (transformed i).1))
        i.url = Node.mk [] (transformed i).1 from by rw [getChild, hlk]; rfl]
    exact dlookup_dinsert_self ..
  · rw [if_neg hstart, if_neg hstart]
    simp only [h3, Bool.false_eq_true, if_false, hgc]
    exact dlookup_dinsert_self ..

theorem stepIssue_closed_result (admins : List String)
    (start_date end_date : Rat) (st : RepoState) (i : ProcessedIssue)
    (h1 : i.author ∉ admins) (h2 : i.created_at ≤ end_date)
    (h3 : i.closed = true) (h4 : start_date ≤ i.created_at)
    (hfresh : dlookup st.nodes i.url = none) :
    dlookup (stepIssue admins start_date end_date st i).nodes i.url =
      some (Node.mk [] (transformed i).1) := by
  unfold stepIssue
  rw [if_neg h1, if_neg (not_lt.mpr h2), if_pos h4]
  have hgc : getChild st.nodes i.url = Node.mk [] [] := by
    rw [getChild, hfresh]
    rfl
  simp only [h3, if_true, hgc]
  exact dlookup_dinsert_self ..

theorem transformed_metrics_open {i : ProcessedIssue}
    (htc : i.time_to_close = none) (hpr : i.time_to_close_pr = none) :
    (transformed i).1 = [] ∨
    ∃ v c, i.category = some c ∧ (transformed i).1 =
      [("time_awaiting_resolution_" ++ c, MetricValue.scalar v)] := by
  cases htar : i.time_awaiting_resolution with
  | none =>
    left
    cases hfac : i.first_admin_comment <;>
      simp [transformed, ttcStep, tarStep, ProcessedIssue.baseMetrics,
        htc, hpr, htar, hfac, dlookup, dpop]
  | some v =>
    cases hcat : i.category with
    | none =>
      left
      cases hfac : i.first_admin_comment <;>
        simp [transformed, ttcStep, tarStep, ProcessedIssue.baseMetrics,
          htc, hpr, htar, hcat, hfac, dlookup, dpop]
    | some c =>
      right
      refine ⟨v, c, rfl, ?_⟩
      cases hfac : i.first_admin_comment <;>
        simp [transformed, ttcStep, tarStep, ProcessedIssue.baseMetrics,
          htc, hpr, htar, hcat, hfac, dlookup, dpop, dinsert,
          tar_suffix_ne_ttc_pr c]

/-! ### C7 -/

/-- C7: an issue authored by a listed admin, or created after the run's
`end_date`, is skipped by `process_repo` before any node or metric is
attached: the repo state is exactly what it was, so the issue contributes
zero entries to every aggregate. -/
theorem C7_gated_issue_excluded (admins : List String)
    (start_date end_date : Rat) (st : RepoState) (i : ProcessedIssue)
    (h : i.author ∈ admins ∨ end_date < i.created_at) :
    stepIssue admins start_date end_date st i = st := by
  unfold stepIssue
  by_cases ha : i.author ∈ admins
  · rw [if_pos ha]
  · rcases h with h | h
    · exact absurd h ha
    · rw [if_neg ha, if_pos h]

/-- Witness for C7: an admin-authored issue and a late-created issue both
leave the state untouched. -/
theorem C7_witness :
    (("alice" ∈ ["alice"] ∨ (10 : Rat) < 2) ∧
      stepIssue ["alice"] 0 10
        ⟨[], []⟩
        { url := "u", author := "alice", created_at := 2, closed := true,
          first_admin_comment := none, category := none, status := "ok",
          time_to_close := some 1, time_awaiting_resolution := none,
          time_to_close_pr := none } = ⟨[], []⟩) ∧
    (("bob" ∈ ["alice"] ∨ (10 : Rat) < 12) ∧
      stepIssue ["alice"] 0 10
        ⟨[], []⟩
        { url := "u", author := "bob", created_at := 12, closed := true,
          first_admin_comment := none, category := none, status := "ok",
          time_to_close := some 1, time_awaiting_resolution := none,
          time_to_close_pr := none } = ⟨[], []⟩) :=
  ⟨⟨Or.inl (by decide),
    C7_gated_issue_excluded ["alice"] 0 10 ⟨[], []⟩ _ (Or.inl (by decide))⟩,
   ⟨Or.inr (by decide),
    C7_gated_issue_excluded ["alice"] 0 10 ⟨[], []⟩ _ (Or.inr (by decide))⟩⟩

/-! ### C6 -/

/-- C6: an issue that is still open at `reporting_end` (and passed the
admin/date gates) gets `time_open` attached, equal to the day-delta
between `created_at` and `reporting_end` and never negative, and no
`time_to_close` metric (base or suffixed) is attached for it. -/
theorem C6_open_issue_time_open (admins : List String)
    (start_date end_date : Rat) (st : RepoState) (i : ProcessedIssue)
    (hspec : SpecIssue i) (h1 : i.author ∉ admins)
    (h2 : i.created_at ≤ end_date) (h3 : i.closed = false)
    (hfresh : dlookup st.nodes i.url = none) :
    ∃ child, dlookup (stepIssue admins start_date end_date st i).nodes i.url
        = some child ∧
      dlookup child.metrics "time_open" =
        some (MetricValue.scalar (get_delta_days i.created_at end_date)) ∧
      0 ≤ get_delta_days i.created_at end_date ∧
      dlookup child.metrics "time_to_close" = none ∧
      (∀ s, dlookup child.metrics ("time_to_close_" ++ s) = none) := by
  obtain ⟨hs1, hs2, -⟩ := hspec
  have htc : i.time_to_close = none := by
    cases h : i.time_to_close with
    | none => rfl
    | some v =>
      have hc := hs1.mp (by rw [h]; rfl)
      rw [h3] at hc
      exact absurd hc (by decide)
  have hpr : i.time_to_close_pr = none := by
    cases h : i.time_to_close_pr with
    | none => rfl
    | some v =>
      have hc := hs2 (by rw [h]; rfl)
      rw [h3] at hc
      exact absurd hc (by decide)
  have hd : 0 ≤ get_delta_days i.created_at end_date := by
    unfold get_delta_days
    linarith
  rw [stepIssue_open_result admins start_date end_date st i h1 h2 h3 hfresh]
  set M := if start_date ≤ i.created_at then (transformed i).1 else []
    with hM
  have hMshape : M = [] ∨ ∃ v c, i.category = some c ∧
      M = [("time_awaiting_resolution_" ++ c, MetricValue.scalar v)] := by
    rw [hM]
    by_cases hstart : start_date ≤ i.created_at
    · rw [if_pos hstart]
      exact transformed_metrics_open htc hpr
    · rw [if_neg hstart]
      exact Or.inl rfl
  refine ⟨_, rfl, ?_⟩
  rcases hMshape with h0 | ⟨v, c, hc, h0⟩ <;> rw [h0]
  · refine ⟨by simp [dinsert, dlookup], hd, by simp [dinsert, dlookup], ?_⟩
    intro s
    have hne2 : ¬"time_open" = "time_to_close_" ++ s :=
      fun e => ttc_suffix_ne_time_open s (Eq.symm e)
    simp [dinsert, dlookup, hne2]
  · have hne1 : ¬"time_awaiting_resolution_" ++ c = "time_open" :=
      tar_suffix_ne_time_open c
    refine ⟨?_, hd, ?_, ?_⟩
    · simp [dinsert, dlookup, hne1]
    · simp [dinsert, dlookup, hne1, tar_suffix_ne_ttc c]
    · intro s
      have hne2 : ¬"time_open" = "time_to_close_" ++ s :=
        fun e => ttc_suffix_ne_time_open s (Eq.symm e)
      simp [dinsert, dlookup, hne1, tar_suffix_ne_ttc_suffix c s, hne2]

/-- Witness for C6: a concrete open issue inside the reporting window. -/
theorem C6_witness :
    (SpecIssue
        { url := "u", author := "bob", created_at := 5,
          closed := false, first_admin_comment := some 6,
          category := some "bug", status := "ok", time_to_close := none,
          time_awaiting_resolution := some 1, time_to_close_pr := none } ∧
      "bob" ∉ ["alice"] ∧ (5 : Rat) ≤ 10) ∧
    (∃ child, dlookup (stepIssue ["alice"] 0 10 ⟨[], []⟩
        { url := "u", author := "bob", created_at := 5, closed := false,
          first_admin_comment := some 6, category := some "bug",
          status := "ok", time_to_close := none,
          time_awaiting_resolution := some 1,
          time_to_close_pr := none }).nodes "u" = some child ∧
      dlookup child.metrics "time_open" =
        some (MetricValue.scalar (get_delta_days 5 10)) ∧
      0 ≤ get_delta_days (5 : Rat) 10 ∧
      dlookup child.metrics "time_to_close" = none ∧
      (∀ s, dlookup child.metrics ("time_to_close_" ++ s) = none)) :=
  ⟨⟨by decide, by decide, by decide⟩,
   C6_open_issue_time_open ["alice"] 0 10 ⟨[], []⟩ _
     (by decide) (by decide) (by decide) (by decide) rfl⟩

/-! ### C9 -/

/-- C9: an issue created before `start_date` (passing the admin/date
gates) gets no category or duration metric attached — a closed one leaves
the state untouched — and if it is still open at `reporting_end` its leaf
node carries exactly the `time_open` metric. -/
theorem C9_early_issue (admins : List String) (start_date end_date : Rat)
    (st : RepoState) (i : ProcessedIssue)
    (h1 : i.author ∉ admins) (h2 : i.created_at ≤ end_date)
    (h3 : i.created_at < start_date)
    (hfresh : dlookup st.nodes i.url = none) :
    (i.closed = true → stepIssue admins start_date end_date st i = st) ∧
    (i.closed = false →
      dlookup (stepIssue admins start_date end_date st i).nodes i.url =
        some (Node.mk [] [("time_open",
          MetricValue.scalar (get_delta_days i.created_at end_date))])) := by
  constructor
  · intro hclosed
    unfold stepIssue
    rw [if_neg h1, if_neg (not_lt.mpr h2), if_neg (not_le.mpr h3)]
    simp only [hclosed, if_true]
  · intro hopen
    rw [stepIssue_open_result admins start_date end_date st i h1 h2 hopen
      hfresh, if_neg (not_le.mpr h3)]
    rfl

/-- Witness for C9: a closed and an open issue both created before
`start_date`. -/
theorem C9_witness :
    ("bob" ∉ ["alice"] ∧ (2 : Rat) ≤ 10 ∧ (2 : Rat) < 3) ∧
    (({ url := "u", author := "bob", created_at := 2, closed := true,
        first_admin_comment := none, category := none, status := "ok",
        time_to_close := some 4, time_awaiting_resolution := none,
        time_to_close_pr := none } : ProcessedIssue).closed = true →
      stepIssue ["alice"] 3 10 ⟨[], []⟩
        { url := "u", author := "bob", created_at := 2, closed := true,
          first_admin_comment := none, category := none, status := "ok",
          time_to_close := some 4, time_awaiting_resolution := none,
          time_to_close_pr := none } = ⟨[], []⟩) ∧
    (({ url := "u", author := "bob", created_at := 2, closed := false,
        first_admin_comment := none, category := none, status := "ok",
        time_to_close := none, time_awaiting_resolution := none,
        time_to_close_pr := none } : ProcessedIssue).closed = false →
      dlookup (stepIssue ["alice"] 3 10 ⟨[], []⟩
        { url := "u", author := "bob", created_at := 2, closed := false,
          first_admin_comment := none, category := none, status := "ok",
          time_to_close := none, time_awaiting_resolution := none,
          time_to_close_pr := none }).nodes "u" =
        some (Node.mk [] [("time_open",
          MetricValue.scalar (get_delta_days 2 10))])) :=
  ⟨⟨by decide, by decide, by decide⟩,
   (C9_early_issue ["alice"] 3 10 ⟨[], []⟩ _
     (by decide) (by decide) (by decide) rfl).1,
   (C9_early_issue ["alice"] 3 10 ⟨[], []⟩ _
     (by decide) (by decide) (by decide) rfl).2⟩

/-! ### C3 -/

theorem transformed_ttc_lookup_closed {i : ProcessedIssue} {v : Rat}
    {cat : String} (htc : i.time_to_close = some v)
    (hcat : i.category = some cat) (htax : cat ∈ CATEGORY_TAXONOMY) :
    (dlookup (transformed i).1 ("time_to_close_" ++ cat)).isSome = true ↔
      (¬(i.status = "duplicate" ∨ i.status = "invalid") ∧
        i.first_admin_comment.isSome = true) := by
  have hA : ¬("time_awaiting_resolution_" ++ cat = "time_to_close_" ++ cat) :=
    tar_suffix_ne_ttc_suffix cat cat
  have hA' : ¬("time_to_close_" ++ cat = "time_awaiting_resolution_" ++ cat) :=
    fun e => hA (Eq.symm e)
  have hB : ¬(("time_to_close_pr" : String) = "time_to_close_" ++ cat) :=
    fun e => ttc_cat_ne_ttc_pr htax (Eq.symm e)
  have hB' : ¬("time_to_close_" ++ cat = "time_to_close_pr") :=
    ttc_cat_ne_ttc_pr htax
  have hC : ¬("time_to_close_" ++ cat = "time_awaiting_resolution") :=
    ttc_suffix_ne_tar cat
  have hC' : ¬(("time_awaiting_resolution" : String) = "time_to_close_" ++ cat) :=
    fun e => hC (Eq.symm e)
  have hT : ¬("time_to_close_" ++ cat = "time_to_close") :=
    ttc_suffix_ne_ttc cat
  have hT' : ¬(("time_to_close" : String) = "time_to_close_" ++ cat) :=
    fun e => hT (Eq.symm e)
  by_cases hst : i.status = "duplicate" ∨ i.status = "invalid" <;>
    cases hfac : i.first_admin_comment <;>
      cases htar : i.time_awaiting_resolution <;>
        cases hpr : i.time_to_close_pr <;>
          simp [transformed, ttcStep, tarStep, ProcessedIssue.baseMetrics,
            htc, hcat, hst, hfac, htar, hpr, dlookup, dpop, dinsert,
            List.filter, hA, hA', hB, hB', hC, hC', hT, hT']

/-- The claim C3 as stated fails on the code: `c3Issue` is closed before
`reporting_end`, passes every gate, has normal status and the recognized
category `bug`, yet `process_repo` attaches no `time_to_close_bug`
metric, because the issue has no first admin comment (line 93 of
`metrics.py` also requires `issue.first_admin_comment`). -/
theorem C3_counterexample :
    SpecIssue c3Issue ∧
    c3Issue.closed = true ∧
    c3Issue.category = some "bug" ∧
    ¬(c3Issue.status = "duplicate" ∨ c3Issue.status = "invalid") ∧
    "bob" ∉ ([] : List String) ∧
    (0 : Rat) ≤ c3Issue.created_at ∧ c3Issue.created_at ≤ 10 ∧
    ((dlookup (stepIssue [] 0 10 ⟨[], []⟩ c3Issue).nodes "u").map
      (fun child => dlookup child.metrics ("time_to_close_" ++ "bug")) =
        some none) := by
  decide

/-- C3 amended: for a processed issue closed before `reporting_end` that
passed the admin/date gates and has a recognized category, the
category-suffixed `time_to_close` metric is present in its attached
metrics iff its status is not duplicate/invalid AND the issue has a first
admin comment (the extra conjunct the code requires). -/
theorem C3_amended_ttc_iff (admins : List String)
    (start_date end_date : Rat) (st : RepoState) (i : ProcessedIssue)
    (cat : String) (hspec : SpecIssue i) (h1 : i.author ∉ admins)
    (h2 : i.created_at ≤ end_date) (h3 : start_date ≤ i.created_at)
    (h4 : i.closed = true) (hcat : i.category = some cat)
    (hfresh : dlookup st.nodes i.url = none) :
    ∃ child, dlookup (stepIssue admins start_date end_date st i).nodes i.url
        = some child ∧
      ((dlookup child.metrics ("time_to_close_" ++ cat)).isSome = true ↔
        (¬(i.status = "duplicate" ∨ i.status = "invalid") ∧
          i.first_admin_comment.isSome = true)) := by
  obtain ⟨hs1, hs2, hs3⟩ := hspec
  obtain ⟨v, htc⟩ := Option.isSome_iff_exists.mp (hs1.mpr h4)
  have htax : cat ∈ CATEGORY_TAXONOMY := by
    rw [hcat] at hs3
    have : CATEGORY_TAXONOMY.contains cat = true := by
      simpa [Option.all] using hs3
    simpa using this
  rw [stepIssue_closed_result admins start_date end_date st i h1 h2 h4 h3
    hfresh]
  exact ⟨_, rfl, transformed_ttc_lookup_closed htc hcat htax⟩

/-- Witness for the amended C3: `c3Issue` (no admin comment, metric
absent) and `c3IssueFac` (admin comment present, metric attached). -/
theorem C3_witness :
    (SpecIssue c3IssueFac ∧ "bob" ∉ ([] : List String) ∧
      (0 : Rat) ≤ c3IssueFac.created_at ∧ c3IssueFac.created_at ≤ 10 ∧
      c3IssueFac.closed = true ∧ c3IssueFac.category = some "bug") ∧
    (∃ child, dlookup (stepIssue [] 0 10 ⟨[], []⟩ c3IssueFac).nodes
        c3IssueFac.url = some child ∧
      ((dlookup child.metrics ("time_to_close_" ++ "bug")).isSome = true ↔
        (¬(c3IssueFac.status = "duplicate" ∨ c3IssueFac.status = "invalid") ∧
          c3IssueFac.first_admin_comment.isSome = true))) :=
  ⟨⟨by decide, by decide, by decide, by decide, by decide, by decide⟩,
   C3_amended_ttc_iff [] 0 10 ⟨[], []⟩ c3IssueFac "bug"
     (by decide) (by decide) (by decide) (by decide) (by decide)
     (by decide) rfl⟩

/-! ### C2 -/

/-- C2: when at least one processed issue was collected as untagged while
holding a pending duration metric, `run` prints the URL of every
offending issue and returns before any aggregation or summarization: the
outcome carries no report rows at all. -/
theorem C2_untagged_aborts (admins : List String)
    (start_date end_date : Rat) (date : String) (input : RunInput)
    (h : (buildTree admins start_date end_date input).2 ≠ []) :
    ∃ out, run admins start_date end_date date input = some out ∧
      out.rows = [] ∧
      ∀ i ∈ (buildTree admins start_date end_date input).2,
        i.url ∈ out.printed := by
  have hcond : ¬(buildTree admins start_date end_date input).2.isEmpty = true := by
    simpa [List.isEmpty_iff] using h
  simp only [run]
  rw [if_neg hcond]
  refine ⟨_, rfl, rfl, ?_⟩
  intro i hi
  exact List.mem_cons_of_mem _ (List.mem_map_of_mem ProcessedIssue.url hi)

/-- Witness for C2: one org, one repo, one closed issue with a pending
`time_to_close` and a first admin comment but no category label — it is
collected as untagged and the run aborts with its URL printed. -/
theorem C2_witness :
    (buildTree [] 0 10 c2Input).2 ≠ [] ∧
    (∃ out, run [] 0 10 "2020-04-20" c2Input = some out ∧
      out.rows = [] ∧
      ∀ i ∈ (buildTree [] 0 10 c2Input).2, i.url ∈ out.printed) :=
  ⟨by decide,
   C2_untagged_aborts [] 0 10 "2020-04-20" c2Input (by decide)⟩

end DxAutomator
